import Mathlib

/-!
Verification of the price-list analyzer (`src/project.py`).

The program ingests CSV price lists, normalizes rows into records
`[name, price, weight, file, price_per_kg]`, supports substring search
over names (`PriceMachine.find_text`), and resolves localized header
columns (`PriceMachine._search_product_price_weight`).

Modelling choices:
- a Python `str` is its list of Unicode code points (`Str := List Nat`);
  the literals of the program are written with `ofChars` over character
  lists so each code point is checked by Lean itself;
- Python's `str.lower` is modelled on the character ranges the program
  can meet (ASCII letters and the basic Cyrillic block); all other code
  points are caseless, as in Python;
- Python's `round(x, 1)` is modelled as exact rational
  round-half-to-even at one decimal (`pyRound1`);
- Python's `sorted` with a key is a stable sort; it is embedded as
  insertion sort (`List.insertionSort`), which is stable;
- exceptions are modelled with `Except`; the filesystem seen by
  `load_prices` is a `FileSystem` value: directory existence, the
  directory listing, and the parsed CSV rows of each readable file.
-/

attribute [local semireducible] Rat.sub Rat.add Rat.mul Rat.inv

namespace PriceList

/-- A Python string, as its list of Unicode code points. -/
abbrev Str := List Nat

/-- Code points of a list of characters, used to write the program's literals. -/
def ofChars (cs : List Char) : Str := cs.map Char.toNat

/-- Whitespace characters for `str.strip` and `int()` (ASCII whitespace). -/
def pyIsSpace (c : Nat) : Bool := c = 32 || (9 ≤ c && c ≤ 13)

/-- Python `str.lower`, on the character ranges relevant to the program:
ASCII capitals and the basic Cyrillic block; other code points are caseless. -/
def pyLowerChar (c : Nat) : Nat :=
  if 65 ≤ c ∧ c ≤ 90 then c + 32
  else if 1024 ≤ c ∧ c ≤ 1039 then c + 80
  else if 1040 ≤ c ∧ c ≤ 1071 then c + 32
  else c

/-- Python `str.lower` over a whole string. -/
def pyLower (s : Str) : Str := s.map pyLowerChar

/-- Python `str.strip`: drop leading and trailing whitespace. -/
def pyStrip (s : Str) : Str :=
  (((s.dropWhile pyIsSpace).reverse.dropWhile pyIsSpace)).reverse

/-- Python's substring test `t in s` on strings. -/
def pyContains (s t : Str) : Bool :=
  match s with
  | [] => t.isEmpty
  | c :: s' => t.isPrefixOf (c :: s') || pyContains s' t

/-- Python's `s.endswith(t)` on strings. -/
def pyEndsWith (s t : Str) : Bool := t.isSuffixOf s

/-- Decimal digit test. -/
def isDigit (c : Nat) : Bool := 48 ≤ c && c ≤ 57

/-- Value of a nonempty all-digit string. -/
def digitsToNat (s : Str) : Nat := s.foldl (fun acc c => acc * 10 + (c - 48)) 0

/-- Parse a sign-less digit block, as `int()` does after the optional sign. -/
def parseDigits (s : Str) : Option Nat :=
  if s ≠ [] ∧ s.all isDigit then some (digitsToNat s) else none

/-- Python `int(s)` for base 10: surrounding whitespace is stripped, an
optional single `+` or `-` sign precedes a nonempty digit block. Returns
`none` where `int()` raises `ValueError`. -/
def pyParseInt (s : Str) : Option Int :=
  match pyStrip s with
  | 43 :: ds => (parseDigits ds).map fun n => (n : Int)
  | 45 :: ds => (parseDigits ds).map fun n => -(n : Int)
  | ds => (parseDigits ds).map fun n => (n : Int)

/-- Round-half-to-even of a rational to an integer (Python's `round` on
the exact value). -/
def pyRoundHalfEven (q : ℚ) : ℤ :=
  let f : ℤ := Int.fdiv q.num (q.den : ℤ)
  let frac : ℚ := q - (f : ℚ)
  if frac < 1 / 2 then f
  else if 1 / 2 < frac then f + 1
  else if f % 2 = 0 then f else f + 1

/-- Python `round(q, 1)`: round-half-to-even at one decimal place. -/
def pyRound1 (q : ℚ) : ℚ := (pyRoundHalfEven (10 * q) : ℚ) / 10

example : pyRound1 ((10 : ℚ) / 4) = 5 / 2 := by decide
example : pyRound1 ((10 : ℚ) / 2) = 5 := by decide
example : pyRound1 ((1 : ℚ) / 4) = 1 / 5 := by decide
example : pyParseInt (ofChars [' ', '-', '4', '2', ' ']) = some (-42) := by decide
example : pyParseInt (ofChars ['4', 'x']) = none := by decide
example : pyContains (ofChars ['p', 'r', 'i', 'c', 'e', '1']) (ofChars ['r', 'i', 'c']) = true := by decide
example : pyStrip (pyLower (ofChars [' ', 'A', 'b', ' '])) = ofChars ['a', 'b'] := by decide
example : pyLower (ofChars ['Т', 'О', 'в', 'а', 'р']) = ofChars ['т', 'о', 'в', 'а', 'р']:= by decide

/-! ## Data model

`project.py` stores each processed row as the 5-list
`[product_name, product_price, product_weight, file_name, price_per_kg]`
(line 60).  It is embedded as a structure. -/

/-- One processed row of `PriceMachine.data`:
`[product_name, product_price, product_weight, file_name, price_per_kg]`. -/
structure Record where
  name : Str
  price : ℤ
  weight : ℤ
  source : Str
  unit_price : ℚ
deriving DecidableEq

/-- The exceptions a single data row of `load_prices` can raise
(lines 53-60 of `project.py`): `row[None]` (TypeError), `row[i]` out of
range (IndexError), `int(...)` failing (ValueError), division by a zero
weight (ZeroDivisionError). -/
inductive RowErr where
  | typeError
  | indexError
  | valueError
  | zeroDivision
deriving DecidableEq

/-- The two ingestion-fatal exceptions of `load_prices`
(lines 31-37): `FileNotFoundError` for a missing directory and
`ValueError` when no price CSV file is found. -/
inductive LoadErr where
  | fileNotFound
  | noCsvFiles
deriving DecidableEq

/-- A Python runtime value, to state what `load_prices` returns:
the spec says a count (an `int`), the code returns `self.data` (a list). -/
inductive PyValue where
  | int : ℤ → PyValue
  | list : List Record → PyValue
deriving DecidableEq

/-! ## Header resolution (`_search_product_price_weight`, lines 69-83) -/

/-- Header synonyms for the product name: названи­е, продукт, товар,
наименование (line 79). -/
def nameSyns : List Str :=
  [ofChars ['н', 'а', 'з', 'в', 'а', 'н', 'и', 'е'],
   ofChars ['п', 'р', 'о', 'д', 'у', 'к', 'т'],
   ofChars ['т', 'о', 'в', 'а', 'р'],
   ofChars ['н', 'а', 'и', 'м', 'е', 'н', 'о', 'в', 'а', 'н', 'и', 'е']]

/-- Header synonyms for the price: цена, розница (line 80). -/
def priceSyns : List Str :=
  [ofChars ['ц', 'е', 'н', 'а'],
   ofChars ['р', 'о', 'з', 'н', 'и', 'ц', 'а']]

/-- Header synonyms for the weight: фасовка, масса, вес (line 81). -/
def weightSyns : List Str :=
  [ofChars ['ф', 'а', 'с', 'о', 'в', 'к', 'а'],
   ofChars ['м', 'а', 'с', 'с', 'а'],
   ofChars ['в', 'е', 'с']]

/-- `PriceMachine._search_product_price_weight` (lines 69-83): for each
semantic field, the index of the first header equal to one of the
field's synonyms (`next((i for i, h in enumerate(headers) if h in [...]), None)`). -/
def searchProductPriceWeight (headers : List Str) :
    Option Nat × Option Nat × Option Nat :=
  (headers.findIdx? (fun h => decide (h ∈ nameSyns)),
   headers.findIdx? (fun h => decide (h ∈ priceSyns)),
   headers.findIdx? (fun h => decide (h ∈ weightSyns)))

/-! ## Row normalization (`load_prices` lines 53-60) -/

/-- Python `row[i]` where `i` may be `None`: `row[None]` raises
`TypeError`, an out-of-range index raises `IndexError`. -/
def pyRowGet (row : List Str) : Option Nat → Except RowErr Str
  | none => .error .typeError
  | some k =>
    match row.get? k with
    | some v => .ok v
    | none => .error .indexError

/-- The body of the `for row in csvreader[1:]` loop for one row
(lines 54-60): extract and normalize the name, parse price and weight
with `int`, and derive `price_per_kg = round(price / weight, 1)`.
A zero weight raises `ZeroDivisionError`. -/
def parseRow (ni pi wi : Option Nat) (fname : Str) (row : List Str) :
    Except RowErr Record :=
  match pyRowGet row ni with
  | .error e => .error e
  | .ok nameRaw =>
    match pyRowGet row pi with
    | .error e => .error e
    | .ok priceRaw =>
      match pyParseInt priceRaw with
      | none => .error .valueError
      | some price =>
        match pyRowGet row wi with
        | .error e => .error e
        | .ok weightRaw =>
          match pyParseInt weightRaw with
          | none => .error .valueError
          | some weight =>
            if weight = 0 then .error .zeroDivision
            else
              .ok { name := pyStrip (pyLower nameRaw), price := price,
                    weight := weight, source := fname,
                    unit_price := pyRound1 ((price : ℚ) / (weight : ℚ)) }

/-- The row loop of `load_prices` (lines 51-60): rows are processed in
order into `filtered_data`; the first exception aborts the whole loop
(there is no per-row handler in the source). -/
def processRows (ni pi wi : Option Nat) (fname : Str) :
    List (List Str) → Except RowErr (List Record)
  | [] => .ok []
  | row :: rest =>
    match parseRow ni pi wi fname row with
    | .error e => .error e
    | .ok r =>
      match processRows ni pi wi fname rest with
      | .error e => .error e
      | .ok rs => .ok (r :: rs)

/-- Processing of one CSV file's parsed rows (lines 42-60): an empty
file only prints a warning and contributes nothing; otherwise row 0 is
the header row and the remaining rows are normalized. -/
def processFile (fname : Str) (rows : List (List Str)) :
    Except RowErr (List Record) :=
  match rows with
  | [] => .ok []
  | headers :: body =>
    match searchProductPriceWeight headers with
    | (ni, pi, wi) => processRows ni pi wi fname body

/-! ## Ingestion (`load_prices`, lines 18-67) -/

/-- The filesystem as `load_prices` observes it: whether the directory
exists (`os.path.exists`), its entries (`os.listdir`), and for each
openable file its rows as parsed by `csv.reader` (`none` models an I/O
error on `open`/read). -/
structure FileSystem where
  dirExists : Bool
  entries : List Str
  contents : Str → Option (List (List Str))

/-- The word price, the file-name filter substring of line 34. -/
def strPrice : Str := ofChars ['p', 'r', 'i', 'c', 'e']

/-- The extension .csv of the `endswith` check of line 34. -/
def strCsv : Str := ofChars ['.', 'c', 's', 'v']

/-- Line 34: entries whose name contains the substring price and ends
with .csv, in listing order. -/
def priceFiles (fs : FileSystem) : List Str :=
  fs.entries.filter (fun f => pyContains f strPrice && pyEndsWith f strCsv)

/-- The per-file `try`/`except` of lines 40-65: an I/O error or any row
exception is caught, the catalog keeps its previous value, and the
loop continues; on success the file's records are appended
(`self.data += filtered_data`, line 61). -/
def ingestFile (fs : FileSystem) (cat : List Record) (f : Str) :
    List Record :=
  match fs.contents f with
  | none => cat
  | some rows =>
    match processFile f rows with
    | .ok recs => cat ++ recs
    | .error _ => cat

/-- `PriceMachine.load_prices` (lines 18-67) acting on the catalog
`self.data`: the two fatal checks of lines 31-37, then the per-file
loop of lines 39-65. -/
def load_prices (fs : FileSystem) (init : List Record) :
    Except LoadErr (List Record) :=
  if fs.dirExists = false then .error .fileNotFound
  else if priceFiles fs = [] then .error .noCsvFiles
  else .ok ((priceFiles fs).foldl (ingestFile fs) init)

/-- The value `load_prices` returns to its caller: `return self.data`
(line 67), i.e. the full catalog as a Python list. -/
def loadPricesReturn (fs : FileSystem) (init : List Record) :
    Except LoadErr PyValue :=
  (load_prices fs init).map PyValue.list

/-- What one file adds to the catalog: its records on success, nothing
when it is skipped. -/
def fileContribution (fs : FileSystem) (f : Str) : List Record :=
  match fs.contents f with
  | none => []
  | some rows =>
    match processFile f rows with
    | .ok recs => recs
    | .error _ => []

/-! ## Search (`find_text`, lines 145-157) -/

/-- The sort key relation of line 155: ascending `price_per_kg`
(`key=lambda x: x[-1]`). -/
def byUnit (a b : Record) : Prop := a.unit_price ≤ b.unit_price

instance : DecidableRel byUnit := fun a b =>
  inferInstanceAs (Decidable (a.unit_price ≤ b.unit_price))

/-- `PriceMachine.find_text` (lines 145-157):
`sorted([row for row in self.data if text in row[0]], key=lambda x: x[-1])`.
Python's `sorted` is a stable sort, embedded as insertion sort. -/
def find_text (data : List Record) (text : Str) : List Record :=
  List.insertionSort byUnit (data.filter (fun r => pyContains r.name text))

/-! ## Helper lemmas: lower-casing and stripping -/

theorem pyLowerChar_idem (c : Nat) :
    pyLowerChar (pyLowerChar c) = pyLowerChar c := by
  unfold pyLowerChar
  split_ifs <;> omega

theorem map_eq_self_of_mem {f : Nat → Nat} :
    ∀ {l : List Nat}, (∀ c ∈ l, f c = c) → l.map f = l
  | [], _ => rfl
  | c :: t, h => by
    rw [List.map_cons, h c (List.mem_cons_self c t),
      map_eq_self_of_mem fun x hx => h x (List.mem_cons_of_mem c hx)]

theorem mem_pyStrip {l : Str} {c : Nat} (h : c ∈ pyStrip l) : c ∈ l := by
  unfold pyStrip at h
  have h1 := (List.dropWhile_sublist pyIsSpace).subset (List.mem_reverse.mp h)
  exact (List.dropWhile_sublist pyIsSpace).subset (List.mem_reverse.mp h1)

theorem head?_dropWhile_false (p : Nat → Bool) :
    ∀ (l : List Nat) (c : Nat), (l.dropWhile p).head? = some c → p c = false
  | [], c, h => by simp [List.dropWhile] at h
  | a :: t, c, h => by
    rw [List.dropWhile_cons] at h
    by_cases hp : p a
    · rw [if_pos hp] at h
      exact head?_dropWhile_false p t c h
    · rw [if_neg hp] at h
      rw [List.head?_cons, Option.some_inj] at h
      subst h
      simpa using hp

theorem dropWhile_eq_self_of_head (p : Nat → Bool) (l : List Nat)
    (h : ∀ c, l.head? = some c → p c = false) : l.dropWhile p = l := by
  cases l with
  | nil => rfl
  | cons a t =>
    rw [List.dropWhile_cons, if_neg]
    simp [h a rfl]

theorem dropWhile_dropWhile (p : Nat → Bool) (l : List Nat) :
    (l.dropWhile p).dropWhile p = l.dropWhile p :=
  dropWhile_eq_self_of_head p _ (head?_dropWhile_false p l)

theorem getLast?_dropWhile (p : Nat → Bool) (l : List Nat)
    (h : l.dropWhile p ≠ []) : (l.dropWhile p).getLast? = l.getLast? := by
  induction l with
  | nil => exact absurd rfl h
  | cons a t ih =>
    rw [List.dropWhile_cons] at h ⊢
    by_cases hp : p a
    · rw [if_pos hp] at h ⊢
      have ht : t ≠ [] := by
        intro e
        subst e
        simp [List.dropWhile] at h
      obtain ⟨b, t', rfl⟩ := List.exists_cons_of_ne_nil ht
      rw [List.getLast?_cons_cons]
      exact ih h
    · rw [if_neg hp]

theorem pyStrip_idem (l : Str) : pyStrip (pyStrip l) = pyStrip l := by
  by_cases hB : (l.dropWhile pyIsSpace).reverse.dropWhile pyIsSpace = []
  · unfold pyStrip
    rw [hB]
    simp [List.dropWhile]
  · have hhead : ∀ c,
        ((l.dropWhile pyIsSpace).reverse.dropWhile pyIsSpace).reverse.head? = some c →
        pyIsSpace c = false := by
      intro c hc
      rw [List.head?_reverse, getLast?_dropWhile _ _ hB, List.getLast?_reverse] at hc
      exact head?_dropWhile_false _ _ _ hc
    show pyStrip ((l.dropWhile pyIsSpace).reverse.dropWhile pyIsSpace).reverse = _
    unfold pyStrip
    rw [dropWhile_eq_self_of_head _ _ hhead, List.reverse_reverse, dropWhile_dropWhile]

theorem pyContains_nil (s : Str) : pyContains s [] = true := by
  cases s <;> rfl

/-! ## Helper lemmas: stability of the embedded sort -/

instance : IsTotal Record byUnit := ⟨fun a b => le_total a.unit_price b.unit_price⟩

instance : IsTrans Record byUnit := ⟨fun _ _ _ hab hbc => le_trans hab hbc⟩

theorem orderedInsert_filter_pos (a : Record) (q : ℚ) (h : a.unit_price = q) :
    ∀ l : List Record,
      (List.orderedInsert byUnit a l).filter (fun x => decide (x.unit_price = q))
        = a :: l.filter (fun x => decide (x.unit_price = q))
  | [] => by simp [h]
  | b :: t => by
    by_cases hab : byUnit a b
    · rw [List.orderedInsert, if_pos hab]
      simp [List.filter_cons, h]
    · have hbq : b.unit_price ≠ q := by
        rw [← h]
        exact ne_of_lt (lt_of_not_le hab)
      rw [List.orderedInsert, if_neg hab, List.filter_cons, List.filter_cons]
      simp [hbq, orderedInsert_filter_pos a q h t]

theorem orderedInsert_filter_neg (a : Record) (q : ℚ) (h : a.unit_price ≠ q) :
    ∀ l : List Record,
      (List.orderedInsert byUnit a l).filter (fun x => decide (x.unit_price = q))
        = l.filter (fun x => decide (x.unit_price = q))
  | [] => by simp [h]
  | b :: t => by
    by_cases hab : byUnit a b
    · rw [List.orderedInsert, if_pos hab, List.filter_cons, List.filter_cons]
      simp [h]
    · rw [List.orderedInsert, if_neg hab, List.filter_cons, List.filter_cons]
      simp [orderedInsert_filter_neg a q h t]

theorem insertionSort_filter (q : ℚ) :
    ∀ l : List Record,
      (List.insertionSort byUnit l).filter (fun x => decide (x.unit_price = q))
        = l.filter (fun x => decide (x.unit_price = q))
  | [] => rfl
  | a :: t => by
    rw [List.insertionSort]
    by_cases h : a.unit_price = q
    · rw [orderedInsert_filter_pos a q h, insertionSort_filter q t, List.filter_cons]
      simp [h]
    · rw [orderedInsert_filter_neg a q h, insertionSort_filter q t, List.filter_cons]
      simp [h]

/-! ## Helper lemmas: the ingestion loop -/

theorem processRows_error (ni pi wi : Option Nat) (f : Str) :
    ∀ (rows : List (List Str)) (row : List Str), row ∈ rows →
      (∃ e, parseRow ni pi wi f row = .error e) →
      ∃ e', processRows ni pi wi f rows = .error e'
  | [], row, hm, _ => absurd hm (List.not_mem_nil row)
  | r0 :: rest, row, hm, ⟨e, he⟩ => by
    rcases List.mem_cons.mp hm with rfl | hm'
    · exact ⟨e, by simp [processRows, he]⟩
    · cases hp : parseRow ni pi wi f r0 with
      | error e0 => exact ⟨e0, by simp [processRows, hp]⟩
      | ok r =>
        obtain ⟨e', he'⟩ := processRows_error ni pi wi f rest row hm' ⟨e, he⟩
        exact ⟨e', by simp [processRows, hp, he']⟩

theorem ingestFile_eq_append (fs : FileSystem) (cat : List Record) (f : Str) :
    ingestFile fs cat f = cat ++ fileContribution fs f := by
  unfold ingestFile fileContribution
  cases fs.contents f with
  | none => simp
  | some rows => cases h : processFile f rows <;> simp [h]

theorem foldl_ingestFile (fs : FileSystem) :
    ∀ (files : List Str) (init : List Record),
      files.foldl (ingestFile fs) init
        = init ++ (files.map (fileContribution fs)).flatten
  | [], init => by simp
  | f :: t, init => by
    rw [List.foldl_cons, foldl_ingestFile fs t, ingestFile_eq_append]
    simp [List.append_assoc]

/-- Inversion of a successful `parseRow`: the produced record's shape. -/
theorem parseRow_ok_shape {ni pi wi : Option Nat} {f : Str} {row : List Str}
    {r : Record} (h : parseRow ni pi wi f row = .ok r) :
    ∃ nameRaw, r.name = pyStrip (pyLower nameRaw)
      ∧ r.unit_price = pyRound1 ((r.price : ℚ) / (r.weight : ℚ))
      ∧ r.weight ≠ 0 ∧ r.source = f := by
  unfold parseRow at h
  split at h
  · exact Except.noConfusion h
  · split at h
    · exact Except.noConfusion h
    · split at h
      · exact Except.noConfusion h
      · split at h
        · exact Except.noConfusion h
        · split at h
          · exact Except.noConfusion h
          · split at h
            · exact Except.noConfusion h
            · rw [Except.ok.injEq] at h
              subst h
              next hnz => exact ⟨_, rfl, rfl, hnz, rfl⟩

/-- First-match characterization used for header resolution: `o` is the
index of the first header belonging to `syns`, or `none` when no header
belongs to it. -/
def firstMatch (syns headers : List Str) : Option Nat → Prop
  | none => ∀ h ∈ headers, h ∉ syns
  | some i => ∃ h, headers[i]? = some h ∧ h ∈ syns ∧
      ∀ j, j < i → ∀ h', headers[j]? = some h' → h' ∉ syns

theorem findIdx?_firstMatch (syns headers : List Str) :
    firstMatch syns headers (headers.findIdx? (fun h => decide (h ∈ syns))) := by
  cases hf : headers.findIdx? (fun h => decide (h ∈ syns)) with
  | none =>
    show ∀ h ∈ headers, h ∉ syns
    intro h hm
    simpa using List.findIdx?_eq_none_iff.mp hf h hm
  | some i =>
    rw [List.findIdx?_eq_some_iff_getElem] at hf
    obtain ⟨hlt, hp, hprev⟩ := hf
    refine ⟨headers[i], List.getElem?_eq_getElem hlt, by simpa using hp, ?_⟩
    intro j hj h' hh'
    have hjlt : j < headers.length := lt_trans hj hlt
    have hnp := hprev j hj
    rw [List.getElem?_eq_getElem hjlt, Option.some_inj] at hh'
    subst hh'
    simpa using hnp

/-! ## Concrete fixtures for witnesses and counterexamples -/

/-- The header товар. -/
def hdrTovar : Str := ofChars ['т', 'о', 'в', 'а', 'р']

/-- The header цена. -/
def hdrTsena : Str := ofChars ['ц', 'е', 'н', 'а']

/-- The header вес. -/
def hdrVes : Str := ofChars ['в', 'е', 'с']

/-- The file name price1.csv. -/
def fnamePrice1 : Str := ofChars ['p', 'r', 'i', 'c', 'e', '1', '.', 'c', 's', 'v']

/-- The file name price0.csv. -/
def fnamePrice0 : Str := ofChars ['p', 'r', 'i', 'c', 'e', '0', '.', 'c', 's', 'v']

/-- A well-formed data row: a,10,2. -/
def rowGood : List Str := [ofChars ['a'], ofChars ['1', '0'], ofChars ['2']]

/-- A data row whose price is not an integer: b,oo,2. -/
def rowBadPrice : List Str := [ofChars ['b'], ofChars ['o', 'o'], ofChars ['2']]

/-- A data row with weight zero: c,9,0. -/
def rowZeroWeight : List Str := [ofChars ['c'], ofChars ['9'], ofChars ['0']]

/-- The record produced from `rowGood` in price1.csv. -/
def recA : Record :=
  { name := ofChars ['a'], price := 10, weight := 2, source := fnamePrice1,
    unit_price := 5 }

/-- A directory with a single well-formed price file holding one data row. -/
def fsOne : FileSystem :=
  { dirExists := true, entries := [fnamePrice1],
    contents := fun f =>
      if f = fnamePrice1 then some [[hdrTovar, hdrTsena, hdrVes], rowGood]
      else none }

/-- A directory whose single price file has a good row followed by a row
with a non-integer price. -/
def fsBadRow : FileSystem :=
  { dirExists := true, entries := [fnamePrice1],
    contents := fun f =>
      if f = fnamePrice1 then
        some [[hdrTovar, hdrTsena, hdrVes], rowGood, rowBadPrice]
      else none }

/-- A directory whose single price file has a good row followed by a row
with weight zero. -/
def fsZeroWeight : FileSystem :=
  { dirExists := true, entries := [fnamePrice1],
    contents := fun f =>
      if f = fnamePrice1 then
        some [[hdrTovar, hdrTsena, hdrVes], rowGood, rowZeroWeight]
      else none }

/-- A directory with a schema-broken file (no weight header) listed
before a well-formed one. -/
def fsMix : FileSystem :=
  { dirExists := true, entries := [fnamePrice0, fnamePrice1],
    contents := fun f =>
      if f = fnamePrice0 then
        some [[hdrTovar, hdrTsena], [ofChars ['a'], ofChars ['1', '0']]]
      else if f = fnamePrice1 then
        some [[hdrTovar, hdrTsena, hdrVes], rowGood]
      else none }

/-- A nonexistent directory. -/
def fsNoDir : FileSystem :=
  { dirExists := false, entries := [], contents := fun _ => none }

/-- An existing directory with entries, none of which passes the literal
case-sensitive price-and-.csv filter. -/
def fsNoPrice : FileSystem :=
  { dirExists := true,
    entries :=
      [ofChars ['P', 'R', 'I', 'C', 'E', '1', '.', 'C', 'S', 'V'],
       ofChars ['d', 'a', 't', 'a', '.', 'c', 's', 'v'],
       ofChars ['p', 'r', 'i', 'c', 'e', '1', '.', 't', 'x', 't']],
    contents := fun _ => none }

/-! ## Claims -/

/-- C1: for every catalog state and every query string, `find_text`
returns exactly those records whose stored name contains the query as a
literal substring (the query used as given, not normalized), sorted
ascending by `unit_price`; records of equal `unit_price` keep their
original insertion order: filtering the output and the filtered catalog
by any fixed `unit_price` value gives identical ordered lists (stable
sort). -/
theorem find_text_spec (data : List Record) (text : Str) :
    List.Pairwise (fun a b : Record => a.unit_price ≤ b.unit_price)
      (find_text data text)
    ∧ (find_text data text).Perm (data.filter (fun r => pyContains r.name text))
    ∧ ∀ q : ℚ,
        (find_text data text).filter (fun x => decide (x.unit_price = q))
          = (data.filter (fun r => pyContains r.name text)).filter
              (fun x => decide (x.unit_price = q)) := by
  refine ⟨?_, ?_, fun q => insertionSort_filter q _⟩
  · exact List.sorted_insertionSort byUnit _
  · exact List.perm_insertionSort byUnit _

/-- C2: every record produced by the row normalizer has
`unit_price = round(price / weight, 1)` computed from its own price and
weight at creation time, and its name is fully lower-cased with no
leading or trailing whitespace. -/
theorem parseRow_normalized {ni pi wi : Option Nat} {f : Str}
    {row : List Str} {r : Record} (h : parseRow ni pi wi f row = .ok r) :
    r.unit_price = pyRound1 ((r.price : ℚ) / (r.weight : ℚ))
    ∧ pyLower r.name = r.name
    ∧ pyStrip r.name = r.name := by
  obtain ⟨nameRaw, hname, hunit, _, _⟩ := parseRow_ok_shape h
  refine ⟨hunit, ?_, ?_⟩
  · rw [hname]
    apply map_eq_self_of_mem
    intro c hc
    obtain ⟨y, _, rfl⟩ := List.mem_map.mp (mem_pyStrip hc)
    exact pyLowerChar_idem y
  · rw [hname]
    exact pyStrip_idem _

/-- The record produced from the row " Ab",10,4: name lower-cased and
stripped, unit price 10/4 rounded to 2.5. -/
def recAb : Record :=
  { name := ofChars ['a', 'b'], price := 10, weight := 4,
    source := fnamePrice1, unit_price := 5 / 2 }

/-- C2 witness: `parseRow_normalized` applied to the concrete row
" Ab",10,4 of price1.csv. -/
theorem parseRow_normalized_witness :
    recAb.unit_price = pyRound1 ((recAb.price : ℚ) / (recAb.weight : ℚ))
    ∧ pyLower recAb.name = recAb.name
    ∧ pyStrip recAb.name = recAb.name :=
  @parseRow_normalized (some 0) (some 1) (some 2) fnamePrice1
    [ofChars [' ', 'A', 'b'], ofChars ['1', '0'], ofChars ['4']] recAb rfl

/-- C3: for every header row, header resolution returns for each of the
three semantic fields the index of the first (leftmost) header exactly
equal to one of that field's synonyms, and `none` when no header
matches; it is a total function (never raises) and never returns the
index of a later duplicate. -/
theorem searchProductPriceWeight_first (headers : List Str) :
    firstMatch nameSyns headers (searchProductPriceWeight headers).1
    ∧ firstMatch priceSyns headers (searchProductPriceWeight headers).2.1
    ∧ firstMatch weightSyns headers (searchProductPriceWeight headers).2.2 :=
  ⟨findIdx?_firstMatch nameSyns headers,
   findIdx?_firstMatch priceSyns headers,
   findIdx?_firstMatch weightSyns headers⟩

/-- C4 counterexample: in `fsBadRow` the second data row has a
non-integer price; the sibling first row parses fine on its own, yet
ingestion appends no record at all from the file — the catalog stays
empty, so a bad row is not isolated to that row. -/
theorem load_prices_row_isolation_counterexample :
    parseRow (some 0) (some 1) (some 2) fnamePrice1 rowGood = .ok recA
    ∧ parseRow (some 0) (some 1) (some 2) fnamePrice1 rowBadPrice
        = .error .valueError
    ∧ load_prices fsBadRow [] = .ok [] :=
  ⟨rfl, rfl, rfl⟩

/-- C4 amended: if a data row's price or weight is not a base-10
integer (ValueError), the entire file is aborted: the catalog after the
file equals the catalog before it, so no row of that file — including
the siblings that normalize fine — is appended. -/
theorem rowValueError_aborts_file (fs : FileSystem) (cat : List Record)
    (f : Str) (headers : List Str) (body : List (List Str))
    (hread : fs.contents f = some (headers :: body))
    (hrow : ∃ row ∈ body,
        parseRow (searchProductPriceWeight headers).1
          (searchProductPriceWeight headers).2.1
          (searchProductPriceWeight headers).2.2 f row = .error .valueError) :
    ingestFile fs cat f = cat := by
  obtain ⟨row, hm, he⟩ := hrow
  obtain ⟨e', he'⟩ := processRows_error _ _ _ f body row hm ⟨_, he⟩
  have hpf : processFile f (headers :: body) = .error e' := he'
  simp [ingestFile_eq_append, fileContribution, hread, hpf]

/-- C4 amended, witness: the file of `fsBadRow` contributes nothing. -/
theorem rowValueError_aborts_file_witness :
    ingestFile fsBadRow [] fnamePrice1 = [] :=
  rowValueError_aborts_file fsBadRow [] fnamePrice1
    [hdrTovar, hdrTsena, hdrVes] [rowGood, rowBadPrice] rfl
    ⟨rowBadPrice, by decide, rfl⟩

/-- C5: ingestion of one file is atomic for the catalog: if any data
row of the file raises any exception, the catalog after that file is
exactly the catalog before it — zero records of the file are appended,
including rows normalized before the failing one. -/
theorem ingestFile_atomic (fs : FileSystem) (cat : List Record) (f : Str)
    (headers : List Str) (body : List (List Str))
    (hread : fs.contents f = some (headers :: body))
    (hrow : ∃ row ∈ body, ∃ e,
        parseRow (searchProductPriceWeight headers).1
          (searchProductPriceWeight headers).2.1
          (searchProductPriceWeight headers).2.2 f row = .error e) :
    ingestFile fs cat f = cat := by
  obtain ⟨row, hm, he⟩ := hrow
  obtain ⟨e', he'⟩ := processRows_error _ _ _ f body row hm he
  have hpf : processFile f (headers :: body) = .error e' := he'
  simp [ingestFile_eq_append, fileContribution, hread, hpf]

/-- C5 witness: a zero-weight row (ZeroDivisionError) leaves the catalog
of `fsZeroWeight` exactly as it was. -/
theorem ingestFile_atomic_witness :
    ingestFile fsZeroWeight [recA] fnamePrice1 = [recA] :=
  ingestFile_atomic fsZeroWeight [recA] fnamePrice1
    [hdrTovar, hdrTsena, hdrVes] [rowGood, rowZeroWeight] rfl
    ⟨rowZeroWeight, by decide, RowErr.zeroDivision, rfl⟩

/-- C6 counterexample: on a directory producing exactly one record,
`load_prices` returns the one-element record list (`return self.data`),
which differs from every integer value — in particular from the count
1 the claim says it returns. -/
theorem loadPricesReturn_not_count :
    loadPricesReturn fsOne [] = .ok (PyValue.list [recA])
    ∧ ∀ n : ℤ, PyValue.list [recA] ≠ PyValue.int n :=
  ⟨rfl, fun _ h => PyValue.noConfusion h⟩

/-- C6 amended: `load_prices` returns the final full catalog as a
list — the value of `self.data` after all matching files are folded
in; the final total count is that list's length, not the returned
value. -/
theorem loadPricesReturn_is_catalog (fs : FileSystem) (init : List Record)
    (h1 : fs.dirExists = true) (h2 : priceFiles fs ≠ []) :
    loadPricesReturn fs init
      = .ok (PyValue.list ((priceFiles fs).foldl (ingestFile fs) init)) := by
  simp [loadPricesReturn, load_prices, h1, h2, Except.map]

/-- C6 amended, witness: on `fsOne` the returned value is the final
one-record catalog. -/
theorem loadPricesReturn_is_catalog_witness :
    loadPricesReturn fsOne [] = .ok (PyValue.list [recA]) :=
  loadPricesReturn_is_catalog fsOne [] rfl (by decide)

/-- C7: `load_prices` fails with FileNotFoundError when the directory
does not exist, and with ValueError (no price CSV files) when no
directory entry both contains the literal substring price and ends with
the literal extension .csv; both for any file contents, since the
checks run before any file is processed. -/
theorem load_prices_fatal_checks (fs : FileSystem) (init : List Record) :
    (fs.dirExists = false → load_prices fs init = .error .fileNotFound)
    ∧ (fs.dirExists = true → priceFiles fs = [] →
        load_prices fs init = .error .noCsvFiles) := by
  constructor
  · intro h
    simp [load_prices, h]
  · intro h1 h2
    simp [load_prices, h1, h2]

/-- C7 witness: a missing directory fails with FileNotFoundError, and a
directory whose entries are PRICE1.CSV, data.csv and price1.txt — all
failing the case-sensitive literal checks — fails with ValueError. -/
theorem load_prices_fatal_checks_witness :
    load_prices fsNoDir [] = .error .fileNotFound
    ∧ load_prices fsNoPrice [] = .error .noCsvFiles :=
  ⟨(load_prices_fatal_checks fsNoDir []).1 rfl,
   (load_prices_fatal_checks fsNoPrice []).2 rfl rfl⟩

/-- C8: once the two fatal checks pass, `load_prices` always succeeds:
every exception in one file's processing is caught and only skips that
file, each matching file contributes its own records independently, and
a bad file (empty contribution) never stops the remaining files from
contributing. -/
theorem load_prices_file_isolation (fs : FileSystem) (init : List Record)
    (h1 : fs.dirExists = true) (h2 : priceFiles fs ≠ []) :
    load_prices fs init
      = .ok (init ++ ((priceFiles fs).map (fileContribution fs)).flatten) := by
  simp [load_prices, h1, h2, foldl_ingestFile]

/-- C8 witness: in `fsMix` the first file lacks a weight header and is
skipped, while the second still contributes its record. -/
theorem load_prices_file_isolation_witness :
    load_prices fsMix [] = .ok [recA] :=
  load_prices_file_isolation fsMix [] rfl (by decide)

/-- The record the code builds from the row x,-5,2: a negative stored
price. -/
def recNegPrice : Record :=
  { name := ofChars ['x'], price := -5, weight := 2, source := fnamePrice1,
    unit_price := -5 / 2 }

/-- The record the code builds from the row x,10,-2: a negative stored
weight. -/
def recNegWeight : Record :=
  { name := ofChars ['x'], price := 10, weight := -2, source := fnamePrice1,
    unit_price := -5 }

/-- C9 counterexample: a row with a negative price and a row with a
negative weight both parse successfully into records (Python `int`
accepts a sign), so they are not parse failures as the claim states. -/
theorem parseRow_negative_counterexample :
    parseRow (some 0) (some 1) (some 2) fnamePrice1
      [ofChars ['x'], ofChars ['-', '5'], ofChars ['2']] = .ok recNegPrice
    ∧ recNegPrice.price < 0
    ∧ parseRow (some 0) (some 1) (some 2) fnamePrice1
      [ofChars ['x'], ofChars ['1', '0'], ofChars ['-', '2']] = .ok recNegWeight
    ∧ recNegWeight.weight < 0 :=
  ⟨rfl, by decide, rfl, by decide⟩

/-- C9 amended: the only value restriction the code enforces on a
produced record is a nonzero weight (a zero weight raises
ZeroDivisionError and no record is built); negative prices and negative
weights are stored unchanged, never clamped and never rejected. -/
theorem parseRow_weight_nonzero {ni pi wi : Option Nat} {f : Str}
    {row : List Str} {r : Record} (h : parseRow ni pi wi f row = .ok r) :
    r.weight ≠ 0 := by
  obtain ⟨_, _, _, hw, _⟩ := parseRow_ok_shape h
  exact hw

/-- C9 amended, witness: the record of `rowGood` has nonzero weight. -/
theorem parseRow_weight_nonzero_witness : recA.weight ≠ 0 :=
  @parseRow_weight_nonzero (some 0) (some 1) (some 2) fnamePrice1 rowGood
    recA rfl

/-- C10: searching with the empty query returns every record of the
catalog (the output is a permutation of it), and any search over an
empty catalog returns the empty list — never an error. -/
theorem find_text_empty (data : List Record) (text : Str) :
    (find_text data []).Perm data ∧ find_text [] text = [] := by
  constructor
  · unfold find_text
    rw [List.filter_eq_self.mpr fun a _ => pyContains_nil a.name]
    exact List.perm_insertionSort byUnit data
  · rfl

end PriceList
